import Mathlib

/-!
Verification of the TargetProcess service layer (tp.service.ts).

This file gives a shallow embedding of the request-formatting, validation,
retry and capability-caching engine of the repository and proves or refutes
the frozen claims about it.  Strings are modelled as `List Char` where
character-level processing happens, and as `String` for opaque names and
error messages.  Machine timestamps are `Nat` milliseconds.
-/

namespace TP

/-- Character class used by the embedding for the JS whitespace class.
JS `\s` also covers some unicode spaces; the claims only exercise ASCII. -/
def isWS (c : Char) : Bool := c.isWhitespace

/-- Model of JS `String.prototype.trim` on a character list. -/
def trimChars (l : List Char) : List Char :=
  ((l.dropWhile isWS).reverse.dropWhile isWS).reverse

/-- Decides whether `needle` occurs as a contiguous substring of `hay`
(model of JS `String.prototype.includes`). -/
def isSubstr (needle : List Char) : List Char → Bool
  | [] => needle.isEmpty
  | c :: rest => needle.isPrefixOf (c :: rest) || isSubstr needle rest

/-- String-level wrapper for `isSubstr`. -/
def strIncludes (hay needle : String) : Bool := isSubstr needle.toList hay.toList

/-- A quote character in the where-clause grammar (tp.service.ts line 62 and 103). -/
def isQuoteChar (c : Char) : Bool := c = '\'' || c = '"'

/-- Model of `strValue.replace(/^['"]|['"]$/g, '')` (tp.service.ts line 62):
one leading quote character is removed if present, and one trailing quote
character is removed if present, independently. -/
def stripOuterQuotes (l : List Char) : List Char :=
  let l1 := match l with
    | c :: rest => if isQuoteChar c then rest else c :: rest
    | [] => []
  match l1.getLast? with
  | some c => if isQuoteChar c then l1.dropLast else l1
  | none => l1

/-- Model of `unquoted.replace(/'/g, "''")` (tp.service.ts line 65):
every single quote is doubled. -/
def escapeQuotes : List Char → List Char
  | [] => []
  | c :: rest =>
    if c = '\'' then '\'' :: '\'' :: escapeQuotes rest
    else c :: escapeQuotes rest

/-- The string branch of `formatWhereValue` (tp.service.ts lines 58-68):
strip one outer quote pair, double internal single quotes, wrap in single
quotes. -/
def formatWhereString (l : List Char) : List Char :=
  '\'' :: escapeQuotes (stripOuterQuotes l) ++ ['\'']

/-- JS values that can reach `formatWhereValue` (tp.service.ts lines 41-69).
A date is carried as its already-truncated `YYYY-MM-DD` character list. -/
inductive JsValue : Type
  | null : JsValue
  | bool (b : Bool) : JsValue
  | date (ymd : List Char) : JsValue
  | arr (vs : List JsValue) : JsValue
  | str (s : List Char) : JsValue
deriving Repr

mutual

/-- Model of `formatWhereValue` (tp.service.ts lines 41-69). -/
def formatWhereValue : JsValue → List Char
  | .null => "null".toList
  | .bool b => (if b then "true" else "false").toList
  | .date ymd => '\'' :: ymd ++ ['\'']
  | .arr vs => '[' :: formatWhereValueList vs ++ [']']
  | .str s => formatWhereString s

/-- Comma-join of recursively formatted array elements (tp.service.ts line 55). -/
def formatWhereValueList : List JsValue → List Char
  | [] => []
  | [v] => formatWhereValue v
  | v :: v2 :: rest => formatWhereValue v ++ ',' :: formatWhereValueList (v2 :: rest)

end

/-- Model of `formatWhereField` (tp.service.ts lines 74-82): a leading
`CustomField.` marker is rewritten to `cf_` + remainder; otherwise all
whitespace is removed. -/
def formatWhereField (field : List Char) : List Char :=
  if "CustomField.".toList.isPrefixOf field then
    "cf_".toList ++ field.drop 12
  else
    field.filter (fun c => !(isWS c))

/-- One step of the quote-tracking state of the where-clause splitter
(tp.service.ts lines 103-110).  Returns the updated pair
(inQuote, quoteChar); a quote character toggles the state unless the
previous character was a backslash, and only the matching quote character
closes an open span. -/
def toggleQuote (c : Char) (escaped : Bool) (inQuote : Bool) (quoteChar : Char) :
    Bool × Char :=
  if (c == '\'' || c == '"') && !escaped then
    if !inQuote then (true, c)
    else if c == quoteChar then (false, quoteChar)
    else (inQuote, quoteChar)
  else (inQuote, quoteChar)

/-- Separator test `where.slice(i, i + 4).toLowerCase() === ' and'`
(tp.service.ts line 112): a literal space character followed by `and` in
any case.  When fewer than four characters remain the slice is shorter and
never equals the separator. -/
def isAndSep (c : Char) : List Char → Bool
  | c2 :: c3 :: c4 :: _ =>
    c == ' ' && c2.toLower == 'a' && c3.toLower == 'n' && c4.toLower == 'd'
  | _ => false

/-- The scanning loop of `validateWhereClause` (tp.service.ts lines 100-121):
split the clause on the space-`and` token while tracking quoted spans.
`prev` is the previously scanned character of the original string (used by
the escape check `where[i - 1] !== '\\'`), `cur` is the condition being
accumulated and `acc` holds the conditions already pushed (each trimmed).
When a separator fires, the loop skips the three characters of `and`, so
the previous character for the next iteration is the final `d`. -/
def splitGo : List Char → Option Char → Bool → Char → List Char →
    List (List Char) → List (List Char)
  | [], _, _, _, cur, acc => acc ++ [trimChars cur]
  | c :: c2 :: c3 :: c4 :: rest, prev, inQuote, quoteChar, cur, acc =>
    let q := toggleQuote c (prev == some '\\') inQuote quoteChar
    if !q.1 && isAndSep c (c2 :: c3 :: c4 :: rest) then
      splitGo rest (some c4) q.1 q.2 [] (acc ++ [trimChars cur])
    else
      splitGo (c2 :: c3 :: c4 :: rest) (some c) q.1 q.2 (cur ++ [c]) acc
  | c :: rest, prev, inQuote, quoteChar, cur, acc =>
    -- fewer than four characters remain, so the separator cannot fire
    let q := toggleQuote c (prev == some '\\') inQuote quoteChar
    splitGo rest (some c) q.1 q.2 (cur ++ [c]) acc

/-- The condition-splitting phase of `validateWhereClause`
(tp.service.ts lines 94-121).  The initial `quoteChar` is arbitrary:
it is only compared while inside a quoted span. -/
def splitWhereAnd (w : List Char) : List (List Char) :=
  splitGo w none false ' ' [] []

/-- JS word character (the `\w` class), used for the `\b` boundaries of the
null-check patterns. -/
def isWordChar (c : Char) : Bool := c.isAlphanum || c == '_'

/-- Match `null\b` (case-insensitive) at the head of `l`, returning the
remainder after the match. -/
def matchNullHere : List Char → Option (List Char)
  | n :: u :: l1 :: l2 :: rest =>
    if n.toLower == 'n' && u.toLower == 'u' && l1.toLower == 'l' &&
        l2.toLower == 'l' then
      match rest with
      | [] => some []
      | c :: _ => if isWordChar c then none else some rest
    else none
  | _ => none

/-- Match `is\s+null\b` (case-insensitive) at the head of `l`. -/
def matchIsNullHere : List Char → Option (List Char)
  | i :: s :: c :: rest =>
    if i.toLower == 'i' && s.toLower == 's' && isWS c then
      matchNullHere (rest.dropWhile isWS)
    else none
  | _ => none

/-- Match `is\s+not\s+null\b` (case-insensitive) at the head of `l`. -/
def matchIsNotNullHere : List Char → Option (List Char)
  | i :: s :: c :: rest =>
    if i.toLower == 'i' && s.toLower == 's' && isWS c then
      match rest.dropWhile isWS with
      | n :: o :: t :: rest2 =>
        if n.toLower == 'n' && o.toLower == 'o' && t.toLower == 't' then
          match rest2 with
          | c2 :: rest3 =>
            if isWS c2 then matchNullHere (rest3.dropWhile isWS) else none
          | [] => none
        else none
      | _ => none
    else none
  | _ => none

/-- Word-boundary condition for a match starting after character `prev`:
the null-check patterns start with the word character `i`, so `\b` holds
exactly when the previous character is absent or not a word character. -/
def boundaryOk : Option Char → Bool
  | none => true
  | some p => !isWordChar p

/-- Scan for the leftmost word-boundary match of the head-matcher `m`,
returning the prefix before the match, i.e. `condition.split(regex)[0]`;
`none` models a failed `regex.test(condition)`. -/
def findSplitPrefix (m : List Char → Option (List Char)) :
    List Char → Option Char → Option (List Char)
  | [], prev => if boundaryOk prev && (m []).isSome then some [] else none
  | c :: rest, prev =>
    if boundaryOk prev && (m (c :: rest)).isSome then some []
    else
      match findSplitPrefix m rest (some c) with
      | some pre => some (c :: pre)
      | none => none

/-- Errors of the service layer: `mcp` is an `McpError` (every one thrown in
tp.service.ts has code `InvalidRequest`), `other` is any non-`McpError`
exception such as a network failure thrown by `fetch`. -/
inductive JsError : Type
  | mcp (message : String) : JsError
  | other (message : String) : JsError
deriving Repr, DecidableEq

/-- The `message` of a JS error value. -/
def errMessage : JsError → String
  | .mcp m => m
  | .other m => m

instance {ε α : Type} [DecidableEq ε] [DecidableEq α] :
    DecidableEq (Except ε α) := fun x y =>
  match x, y with
  | .ok a, .ok b =>
    if h : a = b then isTrue (by rw [h])
    else isFalse (by intro hh; cases hh; exact h rfl)
  | .error a, .error b =>
    if h : a = b then isTrue (by rw [h])
    else isFalse (by intro hh; cases hh; exact h rfl)
  | .ok _, .error _ => isFalse (by intro hh; cases hh)
  | .error _, .ok _ => isFalse (by intro hh; cases hh)

/-- JS `.` (dot) without the `s` flag: any character except a line
terminator. -/
def notNL (c : Char) : Bool :=
  !(c == '\n' || c == '\r' || c.val == 0x2028 || c.val == 0x2029)

/-- Match `\s+(.+)$` against `rest` with JS backtracking semantics,
returning the value group.  When everything after the greedy whitespace run
is empty, the engine gives one trailing whitespace character back to the
value group, provided the run had at least two characters and the returned
character is not a line terminator. -/
def matchOpTail (rest : List Char) : Option (List Char) :=
  match rest with
  | [] => none
  | c :: _ =>
    if !isWS c then none
    else
      let r := rest.dropWhile isWS
      if r.isEmpty then
        if rest.length ≥ 2 then
          match rest.getLast? with
          | some last => if notNL last then some [last] else none
          | none => none
        else none
      else if r.all notNL then some r else none

/-- Case-insensitive match of a fixed lowercase token at the head of `l`,
returning the captured original-case text and the remainder. -/
def matchToken (tok : List Char) (l : List Char) : Option (List Char × List Char) :=
  match tok, l with
  | [], rest => some ([], rest)
  | t :: ts, c :: rest =>
    if c.toLower == t then
      match matchToken ts rest with
      | some (cap, rem) => some (c :: cap, rem)
      | none => none
    else none
  | _ :: _, [] => none

/-- Match the two-word alternative `not\s+contains`, capturing the original
text including the actual whitespace run between the words. -/
def matchNotContains (l : List Char) : Option (List Char × List Char) :=
  match matchToken "not".toList l with
  | some (cap1, rem1) =>
    let wsRun := rem1.takeWhile isWS
    if wsRun.isEmpty then none
    else
      match matchToken "contains".toList (rem1.dropWhile isWS) with
      | some (cap2, rem2) => some (cap1 ++ wsRun ++ cap2, rem2)
      | none => none
  | none => none

/-- The operator alternation of the condition regex (tp.service.ts line 135)
in source order, with regex backtracking: an alternative is committed only
when the tail `\s+(.+)$` also matches after it.  Returns the captured
operator text and the captured value. -/
def matchOperator (l : List Char) : Option (List Char × List Char) :=
  let tryTok := fun (tok : String) =>
    match matchToken tok.toList l with
    | some (cap, rem) =>
      match matchOpTail rem with
      | some v => some (cap, v)
      | none => none
    | none => none
  ((((((((tryTok "eq").orElse fun _ => tryTok "ne").orElse fun _ =>
    tryTok "gt").orElse fun _ => tryTok "gte").orElse fun _ =>
    tryTok "lt").orElse fun _ => tryTok "lte").orElse fun _ =>
    tryTok "in").orElse fun _ => tryTok "contains").orElse fun _ =>
    match matchNotContains l with
    | some (cap, rem) =>
      match matchOpTail rem with
      | some v => some (cap, v)
      | none => none
    | none => none

/-- Model of the condition regex
`^([^\s]+)\s+(eq|ne|gt|gte|lt|lte|in|contains|not\s+contains)\s+(.+)$`
with the `i` flag (tp.service.ts line 135): the field is the maximal
leading run of non-whitespace characters, followed by whitespace, the
operator alternation and the value. -/
def matchCondition (l : List Char) :
    Option (List Char × List Char × List Char) :=
  let field := l.takeWhile (fun c => !(isWS c))
  let rest := l.dropWhile (fun c => !(isWS c))
  if field.isEmpty || rest.isEmpty then none
  else
    match matchOperator (rest.dropWhile isWS) with
    | some (op, v) => some (field, op, v)
    | none => none

/-- Compile one (already trimmed) condition segment
(tp.service.ts lines 123-144): null checks first, then the
field-operator-value shape; the operator is lowercased in the output and
the value is trimmed and formatted as a string. -/
def compileCondition (condition : List Char) : Except JsError (List Char) :=
  match findSplitPrefix matchIsNullHere condition none with
  | some pre => .ok (formatWhereField (trimChars pre) ++ " is null".toList)
  | none =>
  match findSplitPrefix matchIsNotNullHere condition none with
  | some pre => .ok (formatWhereField (trimChars pre) ++ " is not null".toList)
  | none =>
  match matchCondition condition with
  | none => .error (.mcp ("Invalid condition format: " ++ String.mk condition))
  | some (field, op, v) =>
    .ok (formatWhereField field ++ ' ' :: (op.map Char.toLower) ++
      ' ' :: formatWhereString (trimChars v))

/-- Left-to-right compilation of all condition segments; the first failing
segment aborts the whole clause, as the JS `Array.map` callback throws. -/
def mapCompile : List (List Char) → Except JsError (List (List Char))
  | [] => .ok []
  | c :: rest => do
    let x ← compileCondition c
    let xs ← mapCompile rest
    return x :: xs

/-- Join of the compiled segments with a lowercase padded `and`
(tp.service.ts line 145). -/
def joinAnd : List (List Char) → List Char
  | [] => []
  | [c] => c
  | c :: c2 :: rest => c ++ " and ".toList ++ joinAnd (c2 :: rest)

/-- Model of `validateWhereClause` (tp.service.ts lines 87-153). -/
def validateWhereClause (w : String) : Except JsError String :=
  if w.toList.isEmpty || (trimChars w.toList).isEmpty then
    .error (.mcp "Empty where clause")
  else
    match mapCompile (splitWhereAnd w.toList) with
    | .ok outs => .ok (String.mk (joinAnd outs))
    | .error e => .error e

/-- Retry configuration (tp.service.ts lines 11-15); despite its name
`maxRetries` counts the total number of attempts, as the loop on line 206
runs `attempt` from 1 to `maxRetries` inclusive. -/
structure RetryConfig where
  maxRetries : Nat
  delayMs : Nat
  backoffFactor : Nat
deriving Repr, DecidableEq

/-- The default retry configuration (tp.service.ts lines 192-196). -/
def defaultRetryConfig : RetryConfig := ⟨3, 1000, 2⟩

/-- Observable events of one `executeWithRetry` run: operation invocations
with their 1-based attempt number, and backoff suspensions with their
duration in milliseconds. -/
inductive RetryEvent : Type
  | call (attempt : Nat) : RetryEvent
  | sleep (ms : Nat) : RetryEvent
deriving Repr, DecidableEq

/-- Number of operation invocations recorded in a retry trace. -/
def numCalls (events : List RetryEvent) : Nat :=
  (events.filter fun e => match e with
    | .call _ => true
    | .sleep _ => false).length

/-- The non-retryable test of `executeWithRetry` (tp.service.ts lines
213-215): an `McpError` whose message contains the literal text
`status: 400` or `status: 401`. -/
def isNonRetryable : JsError → Bool
  | .mcp m => strIncludes m "status: 400" || strIncludes m "status: 401"
  | .other _ => false

/-- Message of the error thrown once the retry budget is spent
(tp.service.ts lines 229-232); a never-assigned `lastError` prints as
`undefined` in the JS template string. -/
def retriesExhaustedMsg (context : String) (maxRetries : Nat)
    (last : Option JsError) : String :=
  "Failed to " ++ context ++ " after " ++ toString maxRetries ++
    " attempts: " ++ ((last.map errMessage).getD "undefined")

/-- The loop of `executeWithRetry` (tp.service.ts lines 206-227) with
`remaining` attempts left; `op` maps the 1-based attempt number to that
attempt outcome, `events` is the trace accumulated so far. -/
def retryGo {T : Type} (op : Nat → Except JsError T) (context : String)
    (maxRetries backoff : Nat) :
    Nat → Nat → Nat → Option JsError → List RetryEvent →
    List RetryEvent × Except JsError T
  | 0, _, _, last, events =>
    (events, .error (.mcp (retriesExhaustedMsg context maxRetries last)))
  | remaining + 1, attempt, delay, _, events =>
    let events2 := events ++ [.call attempt]
    match op attempt with
    | .ok v => (events2, .ok v)
    | .error e =>
      if isNonRetryable e then (events2, .error e)
      else
        match remaining with
        | 0 => (events2, .error (.mcp (retriesExhaustedMsg context maxRetries (some e))))
        | rem + 1 =>
          retryGo op context maxRetries backoff (rem + 1) (attempt + 1)
            (delay * backoff) (some e) (events2 ++ [.sleep delay])

/-- Model of `executeWithRetry` (tp.service.ts lines 199-233), returning
the event trace together with the final outcome. -/
def executeWithRetry {T : Type} (op : Nat → Except JsError T)
    (cfg : RetryConfig) (context : String) :
    List RetryEvent × Except JsError T :=
  retryGo op context cfg.maxRetries cfg.backoffFactor cfg.maxRetries 1
    cfg.delayMs none []

/-- The error body shape (tp.service.ts lines 17-21). -/
structure ApiErrorResponse where
  Message : Option String
  ErrorMessage : Option String
  Description : Option String
deriving Repr, DecidableEq

/-- JS truthiness chain `a || b` on optional strings: an absent field and
an empty string both fall through to the fallback. -/
def jsOrStr (a : Option String) (b : String) : String :=
  match a with
  | some s => if s == "" then b else s
  | none => b

/-- An HTTP response as observed by the service: `ok`, `status` and
`statusText` from the transport, `errorBody` the JSON error body when the
error body parses (`none` models a parse failure inside
`extractErrorMessage`) and `bodyText` the raw text body. -/
structure HttpResponse where
  ok : Bool
  status : Nat
  statusText : String
  errorBody : Option ApiErrorResponse
  bodyText : String
deriving Repr, DecidableEq

/-- Model of `extractErrorMessage` (tp.service.ts lines 235-242). -/
def extractErrorMessage (r : HttpResponse) : String :=
  match r.errorBody with
  | some b =>
    jsOrStr b.Message (jsOrStr b.ErrorMessage (jsOrStr b.Description r.statusText))
  | none => r.statusText

/-- Message of the `McpError` thrown by `handleApiResponse` on a non-2xx
response (tp.service.ts lines 251-257).  Note the literal text is
`failed: <status>`, not `status: <status>`. -/
def apiFailureMsg (context : String) (r : HttpResponse) : String :=
  context ++ " failed: " ++ toString r.status ++ " - " ++ extractErrorMessage r

/-- Model of `handleApiResponse` (tp.service.ts lines 247-259); `body` is
the value the response body decodes to on the success path. -/
def handleApiResponse {T : Type} (r : HttpResponse) (context : String)
    (body : T) : Except JsError T :=
  if !r.ok then .error (.mcp (apiFailureMsg context r))
  else .ok body

/-- The search response shape (api.types.ts lines 3-6). -/
structure ApiResponse (T : Type) where
  Items : Option (List T)
  Next : Option String
deriving Repr, DecidableEq

/-- One attempt of the `searchEntities` operation (tp.service.ts lines
362-374): handle the HTTP response, then return `data.Items || []`. -/
def searchAttempt {T : Type} (r : HttpResponse) (body : ApiResponse T)
    (context : String) : Except JsError (List T) :=
  match handleApiResponse r context body with
  | .ok data => .ok (data.Items.getD [])
  | .error e => .error e

/-- The retried part of `searchEntities` for a fixed wire behavior (every
attempt observes response `r` decoding to `body`), tp.service.ts lines
362-375; the context string is `search <type>s`. -/
def searchEntitiesRun {T : Type} (r : HttpResponse) (body : ApiResponse T)
    (cfg : RetryConfig) (validatedType : String) :
    List RetryEvent × Except JsError (List T) :=
  executeWithRetry
    (fun _ => searchAttempt r body ("search " ++ validatedType ++ "s"))
    cfg ("search " ++ validatedType ++ "s")

/-- Global replacement of a fixed two-character pattern, continuing after
each replacement like a JS global regex replace on a literal pattern. -/
def replace2 (p1 p2 : Char) (repl : List Char) : List Char → List Char
  | [] => []
  | [c] => [c]
  | c :: c2 :: rest =>
    if c == p1 && c2 == p2 then repl ++ replace2 p1 p2 repl rest
    else c :: replace2 p1 p2 repl (c2 :: rest)

/-- The textual JSON repair of `fetchMetadata` (tp.service.ts lines
576-578): insert a comma between `}`-quote pairs; the second substitution
replaces `}}` with itself and is the identity it is in the source. -/
def fixJsonText (t : List Char) : List Char :=
  replace2 '}' '}' ['}', '}'] (replace2 '}' '"' ['}', ',', '"'] t)

/-- Outcome of one `fetchMetadata` attempt (tp.service.ts lines 547-590).
`repairs` counts how many times the textual repair ran during this
attempt; `parse` is the JSON parser oracle, whose `.error` carries the
message of the JS `SyntaxError`. -/
structure MetaAttempt (J : Type) where
  repairs : Nat
  outcome : Except JsError J
deriving Repr

/-- One attempt of the `fetchMetadata` operation (tp.service.ts lines
547-590): non-2xx responses throw before parsing; otherwise the body is
parsed, repaired at most once, and a final parse failure throws an
`McpError`. -/
def fetchMetadataAttempt {J : Type} (parse : List Char → Except String J)
    (r : HttpResponse) : MetaAttempt J :=
  if !r.ok then
    ⟨0, .error (.mcp ("fetch metadata failed: " ++ toString r.status ++
      " - " ++ extractErrorMessage r))⟩
  else
    match parse r.bodyText.toList with
    | .ok j => ⟨0, .ok j⟩
    | .error _ =>
      match parse (fixJsonText r.bodyText.toList) with
      | .ok j => ⟨1, .ok j⟩
      | .error msg =>
        ⟨1, .error (.mcp ("Failed to parse metadata response: " ++ msg))⟩

/-- The full `fetchMetadata` call for a fixed wire behavior: every attempt
observes response `r` (tp.service.ts lines 545-601).  Returns the retry
trace, the total number of repair attempts across the whole call, and the
final outcome. -/
def fetchMetadataRun {J : Type} (parse : List Char → Except String J)
    (r : HttpResponse) (cfg : RetryConfig) :
    List RetryEvent × Nat × Except JsError J :=
  let att := fetchMetadataAttempt parse r
  let run := executeWithRetry (fun _ => att.outcome) cfg "fetch metadata"
  (run.1, numCalls run.1 * att.repairs, run.2)

/-- The static fallback entity-type list of `validateEntityType`
(tp.service.ts lines 273-280). -/
def staticValidEntityTypes : List String :=
  ["UserStory", "Bug", "Task", "Feature",
   "Epic", "PortfolioEpic", "Solution",
   "Request", "Impediment", "TestCase", "TestPlan",
   "Project", "Team", "Iteration", "TeamIteration",
   "Release", "Program", "Comment", "Attachment",
   "EntityState", "Priority", "Process", "GeneralUser"]

/-- The static list returned by `getValidEntityTypes` when the metadata
contains no entity types (tp.service.ts lines 629-639), duplicates
included as in the source. -/
def staticFallbackEmpty : List String :=
  ["UserStory", "Bug", "Task", "Feature",
   "Epic", "PortfolioEpic", "Solution",
   "Request", "Impediment", "TestCase", "TestPlan",
   "Project", "Team", "Iteration", "TeamIteration",
   "Release", "Program", "Comment", "Attachment",
   "EntityState", "Priority", "Process", "GeneralUser",
   "TestCase", "TestPlan", "TestCaseRun", "Build",
   "Assignable", "General", "Relation", "Role",
   "CustomField", "Milestone", "TimeSheet", "Context"]

/-- The static list returned by `getValidEntityTypes` when the fetch threw
a non-`McpError` (tp.service.ts lines 658-667). -/
def staticFallbackError : List String :=
  ["UserStory", "Bug", "Task", "Feature",
   "Epic", "PortfolioEpic", "Solution",
   "Request", "Impediment", "TestCase", "TestPlan",
   "Project", "Team", "Iteration", "TeamIteration",
   "Release", "Program", "Comment", "Attachment",
   "EntityState", "Priority", "Process", "GeneralUser",
   "TestCase", "TestPlan", "TestCaseRun", "Build",
   "Assignable", "General", "Relation", "Role"]

/-- A metadata document as consumed by `getValidEntityTypes`: `none`
models a response without a truthy `Items` array, otherwise the list of
items, each with an optional `Name`. -/
def MetaDoc : Type := Option (List (Option String))

/-- Name collection of `getValidEntityTypes` (tp.service.ts lines
615-621): push each truthy `Name` not already collected, in order. -/
def collectNames (items : List (Option String)) : List String :=
  items.foldl (fun acc it =>
    match it with
    | some n => if n == "" then acc else if acc.contains n then acc else acc ++ [n]
    | none => acc) []

/-- Insertion of a string into a lexicographically sorted list. -/
def insertSorted (s : String) : List String → List String
  | [] => [s]
  | t :: rest => if s ≤ t then s :: t :: rest else t :: insertSorted s rest

/-- Lexicographic sort, modelling the default JS `Array.sort()` on line
643. -/
def sortStrings (l : List String) : List String := l.foldr insertSorted []

/-- Model of `getValidEntityTypes` (tp.service.ts lines 607-669);
`fetchResult` is the outcome of the (already retried) `fetchMetadata`
call.  An `McpError` from the fetch is rethrown (lines 652-654); any other
error and an empty collected list fall back to static lists. -/
def getValidEntityTypes (fetchResult : Except JsError MetaDoc) :
    Except JsError (List String) :=
  match fetchResult with
  | .error e =>
    match e with
    | .mcp _ => .error e
    | .other _ => .ok staticFallbackError
  | .ok meta =>
    let entityTypes := match meta with
      | some items => collectNames items
      | none => []
    if entityTypes.isEmpty then .ok staticFallbackEmpty
    else .ok (sortStrings entityTypes)

/-- Entity-type cache state (tp.service.ts lines 261-265). -/
structure CacheState where
  validEntityTypesCache : Option (List String)
  cacheTimestamp : Nat
deriving Repr, DecidableEq

/-- The cache TTL (tp.service.ts line 264). -/
def cacheExpiryMs : Nat := 3600000

/-- Message of the `McpError` thrown for an unknown entity type
(tp.service.ts lines 309-312). -/
def invalidTypeMsg (ty : String) (valid : List String) : String :=
  "Invalid entity type: '" ++ ty ++ "'. Valid entity types are: " ++
    String.intercalate ", " valid

/-- Result of one sequential `validateEntityType` call. -/
structure ValidateResult where
  state : CacheState
  refreshTriggered : Bool
  result : Except JsError String
deriving Repr, DecidableEq

/-- Model of one `validateEntityType` call with no concurrent caller
(tp.service.ts lines 271-332): `now` is `Date.now()` and `refresh` the
outcome of the freshly started `getValidEntityTypes()` promise, awaited
when a refresh is needed.  On a resolved refresh the cache and the
timestamp are both updated (lines 295-296); on a rejected refresh the
inner catch installs the static list but leaves the timestamp untouched
(lines 297-303), after which the membership check proceeds normally. -/
def validateEntityTypeSeq (now : Nat) (refresh : Except JsError (List String))
    (ty : String) (s : CacheState) : ValidateResult :=
  let isCacheExpired := now - s.cacheTimestamp > cacheExpiryMs
  if s.validEntityTypesCache.isNone || isCacheExpired then
    match refresh with
    | .ok types =>
      let s2 : CacheState := ⟨some types, now⟩
      if types.contains ty then ⟨s2, true, .ok ty⟩
      else ⟨s2, true, .error (.mcp (invalidTypeMsg ty types))⟩
    | .error _ =>
      let s2 : CacheState := ⟨some staticValidEntityTypes, s.cacheTimestamp⟩
      if staticValidEntityTypes.contains ty then ⟨s2, true, .ok ty⟩
      else ⟨s2, true, .error (.mcp (invalidTypeMsg ty staticValidEntityTypes))⟩
  else
    let types := s.validEntityTypesCache.getD []
    if types.contains ty then ⟨s, false, .ok ty⟩
    else ⟨s, false, .error (.mcp (invalidTypeMsg ty types))⟩

/-- Events of the two-validator concurrency scenario of
`validateEntityType`: each `validate` call runs its synchronous prefix
(`startX`), the single discovery promise resolves (`resolve`), and each
suspended caller resumes (`resumeX`). -/
inductive CEvent : Type
  | startA | startB | resolve | resumeA | resumeB
deriving Repr, DecidableEq

/-- Global state of the concurrency machine.  `slot` is whether
`cacheInitPromise` is set, `calls` counts invocations of the underlying
discovery `getValidEntityTypes`, `resolved` whether the discovery
finished, `cachePresent` whether `validEntityTypesCache` is set; `pcX` is
the program counter of validator X (0 pending, 1 suspended awaiting the
shared promise, 2 done) and `ownerX` whether X started the refresh and so
runs the `finally` clearing the slot (tp.service.ts lines 287-304). -/
structure CCState where
  slot : Bool
  calls : Nat
  resolved : Bool
  cachePresent : Bool
  pcA : Nat
  pcB : Nat
  ownerA : Bool
  ownerB : Bool
deriving Repr, DecidableEq

/-- Initial state of the scenario: empty cache, no in-flight refresh. -/
def ccInit : CCState := ⟨false, 0, false, false, 0, 0, false, false⟩

/-- One transition of the concurrency machine; `none` marks an event that
cannot occur in that state (a resume before its start or before the
promise resolved, a resolve with no discovery in flight, a duplicate
event).  A `startX` mirrors the synchronous prefix of
`validateEntityType` (tp.service.ts lines 284-293): with a present cache
the call validates immediately; otherwise it either awaits the published
in-flight promise or starts the discovery and publishes the shared promise
before its first suspension point. -/
def ccStep : CCState → CEvent → Option CCState
  | s, .startA =>
    if s.pcA != 0 then none
    else if s.cachePresent then some { s with pcA := 2 }
    else if s.slot then some { s with pcA := 1, ownerA := false }
    else some { s with slot := true, calls := s.calls + 1, pcA := 1, ownerA := true }
  | s, .startB =>
    if s.pcB != 0 then none
    else if s.cachePresent then some { s with pcB := 2 }
    else if s.slot then some { s with pcB := 1, ownerB := false }
    else some { s with slot := true, calls := s.calls + 1, pcB := 1, ownerB := true }
  | s, .resolve =>
    if s.calls ≥ 1 && !s.resolved then some { s with resolved := true } else none
  | s, .resumeA =>
    if s.pcA == 1 && s.resolved then
      some { s with cachePresent := true, pcA := 2,
                    slot := if s.ownerA then false else s.slot }
    else none
  | s, .resumeB =>
    if s.pcB == 1 && s.resolved then
      some { s with cachePresent := true, pcB := 2,
                    slot := if s.ownerB then false else s.slot }
    else none

/-- Run of the concurrency machine on a schedule. -/
def ccRun : CCState → List CEvent → Option CCState
  | s, [] => some s
  | s, e :: rest =>
    match ccStep s e with
    | some s2 => ccRun s2 rest
    | none => none

/-- All ways to insert an element into a list. -/
def insertEverywhere (x : CEvent) : List CEvent → List (List CEvent)
  | [] => [[x]]
  | y :: ys => (x :: y :: ys) :: (insertEverywhere x ys).map (y :: ·)

/-- All permutations of a list of events. -/
def eventPerms : List CEvent → List (List CEvent)
  | [] => [[]]
  | x :: xs => ((eventPerms xs).map (insertEverywhere x)).flatten

/-- All interleavings of the five events of the two-validator scenario. -/
def allSchedules : List (List CEvent) :=
  eventPerms [CEvent.startA, .startB, .resolve, .resumeA, .resumeB]

/-- Both `validate` calls are issued before the refresh completes. -/
def startsBeforeResolve (sched : List CEvent) : Prop :=
  sched.indexOf .startA < sched.indexOf .resolve ∧
  sched.indexOf .startB < sched.indexOf .resolve

instance (sched : List CEvent) : Decidable (startsBeforeResolve sched) := by
  unfold startsBeforeResolve
  infer_instance

/-- Last element of `w`, defaulting to `prev`: the previous-character
state of the splitter after scanning `w`. -/
def lastOr (prev : Option Char) (w : List Char) : Option Char :=
  match w.getLast? with
  | some c => some c
  | none => prev

/-- The retry trace of a run whose every attempt fails with a retryable
error: `r` attempts remain, the next attempt number is `a`, the current
delay is `d` and the backoff factor `b`.  The first event is an invocation
(no sleep precedes the first attempt), and each failed non-final attempt
is followed by a sleep of the current delay before the delay is multiplied
by the backoff factor. -/
def failTrace (b : Nat) : Nat → Nat → Nat → List RetryEvent
  | 0, _, _ => []
  | 1, a, _ => [.call a]
  | r + 2, a, d => .call a :: .sleep d :: failTrace b (r + 1) (a + 1) (d * b)

/-!  Theorems.  Each claim of the specification is settled below; helper
lemmas come first. -/

/-- Helper: the number of invocations in an all-failure trace equals the
number of attempts. -/
theorem numCalls_failTrace (b : Nat) :
    ∀ r a d, numCalls (failTrace b r a d) = r
  | 0, _, _ => by simp [failTrace, numCalls]
  | 1, _, _ => by simp [failTrace, numCalls]
  | r + 2, a, d => by
    have ih := numCalls_failTrace b (r + 1) (a + 1) (d * b)
    simp [failTrace, numCalls] at ih ⊢
    omega

/-- Helper: a run of `retryGo` in which every remaining attempt fails with
a retryable error produces the canonical failure trace and the
retries-exhausted error wrapping the last underlying error. -/
theorem retryGo_all_fail {T : Type} (op : Nat → Except JsError T)
    (e : Nat → JsError) (ctx : String) (mR b : Nat) :
    ∀ r a d last ev, 1 ≤ r →
    (∀ i, a ≤ i → i < a + r →
      op i = .error (e i) ∧ isNonRetryable (e i) = false) →
    retryGo op ctx mR b r a d last ev =
      (ev ++ failTrace b r a d,
       .error (.mcp (retriesExhaustedMsg ctx mR (some (e (a + r - 1))))))
  | 0, _, _, _, _ => fun hr _ => absurd hr (by omega)
  | r + 1, a, d, last, ev => fun _ hop => by
    have h := hop a (Nat.le_refl a) (by omega)
    rw [retryGo.eq_2, h.1]
    simp only [h.2, Bool.false_eq_true, if_false]
    cases r with
    | zero => simp [failTrace]
    | succ s =>
      have ih := retryGo_all_fail op e ctx mR b (s + 1) (a + 1) (d * b)
        (some (e a)) ((ev ++ [.call a]) ++ [.sleep d]) (by omega)
        (fun i h1 h2 => hop i (by omega) (by omega))
      simp only []
      rw [ih]
      have hidx : a + 1 + (s + 1) - 1 = a + (s + 1 + 1) - 1 := by omega
      rw [hidx]
      simp [failTrace, List.append_assoc]

/-- Claim C1 (code bug): an attempt failing with an HTTP 400 response is
NOT rethrown immediately.  `handleApiResponse` formats the message as
`<context> failed: 400 - <text>` while the short-circuit in
`executeWithRetry` looks for the text `status: 400`, which never occurs,
so the error is treated as retryable: with the default configuration the
operation is invoked three times — not once — and the final error is the
retries-exhausted wrapper, contradicting the claim and the source comment
on tp.service.ts line 212. -/
theorem C1_http400_retried :
    searchEntitiesRun (T := Nat) ⟨false, 400, "Bad Request", none, ""⟩
        ⟨none, none⟩ defaultRetryConfig "UserStory" =
      ([.call 1, .sleep 1000, .call 2, .sleep 2000, .call 3],
       .error (.mcp "Failed to search UserStorys after 3 attempts: search UserStorys failed: 400 - Bad Request")) ∧
    numCalls (searchEntitiesRun (T := Nat) ⟨false, 400, "Bad Request", none, ""⟩
        ⟨none, none⟩ defaultRetryConfig "UserStory").1 = 3 ∧
    isNonRetryable (.mcp (apiFailureMsg "search UserStorys"
        ⟨false, 400, "Bad Request", none, ""⟩)) = false := by
  exact ⟨by decide, by decide, by decide⟩

/-- Claim C2: an operation failing with a retryable error on every attempt
is invoked exactly `maxRetries` times (the `maxAttempts` of the spec); the
final error is the retries-exhausted `McpError` wrapping the message of
the last underlying error; no delay precedes the first attempt, and after
each failed non-final attempt the executor sleeps the current delay and
then multiplies it by the backoff factor — the trace is exactly
`failTrace`. -/
theorem C2_retries_exhausted {T : Type} (op : Nat → Except JsError T)
    (e : Nat → JsError) (cfg : RetryConfig) (ctx : String)
    (hm : 1 ≤ cfg.maxRetries)
    (hop : ∀ i, 1 ≤ i → i ≤ cfg.maxRetries →
      op i = .error (e i) ∧ isNonRetryable (e i) = false) :
    executeWithRetry op cfg ctx =
      (failTrace cfg.backoffFactor cfg.maxRetries 1 cfg.delayMs,
       .error (.mcp (retriesExhaustedMsg ctx cfg.maxRetries
         (some (e cfg.maxRetries))))) ∧
    numCalls (executeWithRetry op cfg ctx).1 = cfg.maxRetries := by
  have main := retryGo_all_fail op e ctx cfg.maxRetries cfg.backoffFactor
    cfg.maxRetries 1 cfg.delayMs none [] hm
    (fun i h1 h2 => hop i h1 (by omega))
  have hidx : 1 + cfg.maxRetries - 1 = cfg.maxRetries := by omega
  rw [hidx] at main
  refine ⟨?_, ?_⟩
  · simpa [executeWithRetry] using main
  · simp [executeWithRetry, main, numCalls_failTrace]

/-- Witness for C2 at a concrete always-failing retryable operation under
the default configuration. -/
theorem C2_retries_exhausted_witness :
    executeWithRetry (T := Nat) (fun _ => .error (.mcp "boom"))
        defaultRetryConfig "search UserStorys" =
      (failTrace 2 3 1 1000,
       .error (.mcp (retriesExhaustedMsg "search UserStorys" 3
         (some (.mcp "boom"))))) ∧
    numCalls (executeWithRetry (T := Nat) (fun _ => .error (.mcp "boom"))
        defaultRetryConfig "search UserStorys").1 = 3 :=
  C2_retries_exhausted (fun _ => .error (.mcp "boom")) (fun _ => .mcp "boom")
    defaultRetryConfig "search UserStorys" (by decide)
    (fun i h1 h2 => ⟨rfl, by show isNonRetryable (.mcp "boom") = false; decide⟩)

/-- Counterexample to claim C9: with a metadata body that never parses,
the textual repair runs once per attempt — three times per `fetchMetadata`
call under the default policy, not exactly once — and the parse `McpError`
is retried by the executor, surfacing as a retries-exhausted error rather
than the parse error itself. -/
theorem C9_counterexample :
    fetchMetadataRun (J := Unit) (fun _ => .error "Unexpected token")
        ⟨true, 200, "OK", none, "notjson"⟩ defaultRetryConfig =
      ([.call 1, .sleep 1000, .call 2, .sleep 2000, .call 3], 3,
       .error (.mcp "Failed to fetch metadata after 3 attempts: Failed to parse metadata response: Unexpected token")) ∧
    (3 : Nat) ≠ 1 := by
  exact ⟨by decide, by decide⟩

/-- Claim C9 as amended: the repair is attempted exactly once per attempt
(not per call), and a body failing to parse even after repair produces an
`McpError` that the Retry Executor treats as retryable: the operation is
re-invoked up to `maxRetries` times and the final error is the
retries-exhausted wrapper around the parse error. -/
theorem C9_amended {J : Type} (parse : List Char → Except String J)
    (r : HttpResponse) (cfg : RetryConfig) (m1 m2 : String)
    (hok : r.ok = true)
    (h1 : parse r.bodyText.toList = .error m1)
    (h2 : parse (fixJsonText r.bodyText.toList) = .error m2)
    (hm : 1 ≤ cfg.maxRetries)
    (hnr : isNonRetryable
      (.mcp ("Failed to parse metadata response: " ++ m2)) = false) :
    (fetchMetadataAttempt parse r).repairs = 1 ∧
    fetchMetadataRun parse r cfg =
      (failTrace cfg.backoffFactor cfg.maxRetries 1 cfg.delayMs,
       cfg.maxRetries,
       .error (.mcp (retriesExhaustedMsg "fetch metadata" cfg.maxRetries
         (some (.mcp ("Failed to parse metadata response: " ++ m2)))))) := by
  have h1s : parse r.bodyText.data = .error m1 := h1
  have h2s : parse (fixJsonText r.bodyText.data) = .error m2 := h2
  have hatt : fetchMetadataAttempt parse r =
      ⟨1, .error (.mcp ("Failed to parse metadata response: " ++ m2))⟩ := by
    simp [fetchMetadataAttempt, hok, h1s, h2s]
  have main := retryGo_all_fail (T := J)
    (fun _ => .error (.mcp ("Failed to parse metadata response: " ++ m2)))
    (fun _ => .mcp ("Failed to parse metadata response: " ++ m2))
    "fetch metadata" cfg.maxRetries cfg.backoffFactor
    cfg.maxRetries 1 cfg.delayMs none [] hm
    (fun i _ _ => ⟨rfl, hnr⟩)
  simp at main
  constructor
  · rw [hatt]
  · simp only [fetchMetadataRun, executeWithRetry, hatt]
    rw [main]
    simp [numCalls_failTrace]

/-- Witness for the amended C9 at a concrete never-parsing body. -/
theorem C9_amended_witness :
    (fetchMetadataAttempt (J := Unit) (fun _ => .error "Unexpected token")
      ⟨true, 200, "OK", none, "notjson"⟩).repairs = 1 ∧
    fetchMetadataRun (J := Unit) (fun _ => .error "Unexpected token")
        ⟨true, 200, "OK", none, "notjson"⟩ defaultRetryConfig =
      (failTrace 2 3 1 1000, 3,
       .error (.mcp (retriesExhaustedMsg "fetch metadata" 3
         (some (.mcp ("Failed to parse metadata response: " ++
           "Unexpected token")))))) :=
  C9_amended (fun _ => .error "Unexpected token")
    ⟨true, 200, "OK", none, "notjson"⟩ defaultRetryConfig
    "Unexpected token" "Unexpected token" rfl rfl rfl (by decide) (by decide)

/-- Claim C10: a successful search response whose decoded body has no
truthy `Items` field yields the empty array; the first attempt succeeds so
the trace is a single invocation. -/
theorem C10_missing_items {T : Type} (r : HttpResponse) (body : ApiResponse T)
    (cfg : RetryConfig) (vt : String)
    (hok : r.ok = true) (hitems : body.Items = none)
    (hm : 1 ≤ cfg.maxRetries) :
    searchEntitiesRun r body cfg vt = ([.call 1], .ok []) := by
  obtain ⟨k, hk⟩ : ∃ k, cfg.maxRetries = k + 1 := ⟨cfg.maxRetries - 1, by omega⟩
  unfold searchEntitiesRun executeWithRetry
  rw [hk, retryGo.eq_2]
  simp [searchAttempt, handleApiResponse, hok, hitems]

/-- Witness for C10 at a concrete OK response with an absent `Items`. -/
theorem C10_missing_items_witness :
    searchEntitiesRun (T := Nat) ⟨true, 200, "OK", none, ""⟩ ⟨none, none⟩
        defaultRetryConfig "UserStory" = ([.call 1], .ok []) :=
  C10_missing_items ⟨true, 200, "OK", none, ""⟩ ⟨none, none⟩
    defaultRetryConfig "UserStory" rfl rfl (by decide)

set_option maxRecDepth 10000 in
/-- Claim C4: the capability cache is single-flight.  In every valid
interleaving of two `validate` calls that are both issued before the
refresh completes, exactly one underlying discovery call is made — the
caller that finds the shared promise slot empty publishes it before its
first suspension point, and the other caller awaits that same promise —
and both callers complete. -/
theorem C4_single_flight :
    ∀ sched ∈ allSchedules, startsBeforeResolve sched →
      ((ccRun ccInit sched).all fun f =>
        f.calls == 1 && f.pcA == 2 && f.pcB == 2) = true := by
  decide

set_option maxRecDepth 10000 in
/-- Witness for C4 at the canonical interleaving in which both calls start
before the single discovery resolves. -/
theorem C4_single_flight_witness :
    ([CEvent.startA, .startB, .resolve, .resumeA, .resumeB] ∈ allSchedules) ∧
    startsBeforeResolve [CEvent.startA, .startB, .resolve, .resumeA, .resumeB] ∧
    ((ccRun ccInit [CEvent.startA, .startB, .resolve, .resumeA, .resumeB]).all
      fun f => f.calls == 1 && f.pcA == 2 && f.pcB == 2) = true :=
  ⟨by decide, by decide, C4_single_flight _ (by decide) (by decide)⟩

/-- Counterexample to claim C5: a refresh that fails with an `McpError`
rejection (the network and parse failure paths of `fetchMetadata` both
surface as `McpError`s, which `getValidEntityTypes` rethrows) installs the
static fallback list but does NOT update the cache timestamp — it stays at
its old value 0 instead of becoming the current time — so a validate call
one second later, well within the TTL, triggers another refresh. -/
theorem C5_counterexample :
    (validateEntityTypeSeq 1700000000000
        (.error (.mcp "Failed to fetch metadata after 3 attempts: x"))
        "UserStory" ⟨none, 0⟩).state = ⟨some staticValidEntityTypes, 0⟩ ∧
    (validateEntityTypeSeq 1700000000000
        (.error (.mcp "Failed to fetch metadata after 3 attempts: x"))
        "UserStory" ⟨none, 0⟩).state.cacheTimestamp ≠ 1700000000000 ∧
    (validateEntityTypeSeq 1700000001000
        (.error (.mcp "Failed to fetch metadata after 3 attempts: x"))
        "UserStory"
        (validateEntityTypeSeq 1700000000000
          (.error (.mcp "Failed to fetch metadata after 3 attempts: x"))
          "UserStory" ⟨none, 0⟩).state).refreshTriggered = true := by
  exact ⟨by decide, by decide, by decide⟩

/-- Claim C5 as amended: every refresh leaves the cache populated, but the
timestamp is updated only by a refresh whose promise resolves.  An
empty-metadata refresh resolves with the static fallback inside
`getValidEntityTypes`, so it does update the timestamp and a subsequent
validate within the TTL triggers no refresh; a rejected refresh installs
the static fallback with the timestamp untouched, so a subsequent validate
whose clock exceeds the old timestamp by more than the TTL triggers
another refresh. -/
theorem C5_amended (s : CacheState) (now now2 : Nat) (e : JsError)
    (types : List String) (ty ty2 : String)
    (r2 r3 : Except JsError (List String))
    (hempty : s.validEntityTypesCache = none) :
    ((validateEntityTypeSeq now (.error e) ty s).state =
      ⟨some staticValidEntityTypes, s.cacheTimestamp⟩) ∧
    (now2 - s.cacheTimestamp > cacheExpiryMs →
      (validateEntityTypeSeq now2 r2 ty2
        (validateEntityTypeSeq now (.error e) ty s).state).refreshTriggered
        = true) ∧
    ((validateEntityTypeSeq now (.ok types) ty s).state =
      ⟨some types, now⟩) ∧
    (now2 - now ≤ cacheExpiryMs →
      (validateEntityTypeSeq now2 r3 ty2
        (validateEntityTypeSeq now (.ok types) ty s).state).refreshTriggered
        = false) ∧
    getValidEntityTypes (.ok (some [])) = .ok staticFallbackEmpty := by
  have hs1 : (validateEntityTypeSeq now (.error e) ty s).state =
      ⟨some staticValidEntityTypes, s.cacheTimestamp⟩ := by
    simp [validateEntityTypeSeq, hempty]
    split <;> rfl
  have hs2 : (validateEntityTypeSeq now (.ok types) ty s).state =
      ⟨some types, now⟩ := by
    simp [validateEntityTypeSeq, hempty]
    split <;> rfl
  refine ⟨hs1, ?_, hs2, ?_, by decide⟩
  · intro hexp
    rw [hs1]
    cases r2 with
    | ok t2 =>
      simp [validateEntityTypeSeq, hexp]
      split <;> rfl
    | error e2 =>
      simp [validateEntityTypeSeq, hexp]
      split <;> rfl
  · intro hfresh
    rw [hs2]
    have hnotexp : ¬(now2 - now > cacheExpiryMs) := by omega
    simp [validateEntityTypeSeq, hnotexp]
    split <;> rfl

/-- Witness for the amended C5 at concrete clocks and a concrete rejected
refresh. -/
theorem C5_amended_witness :
    ((validateEntityTypeSeq 1700000000000
        (.error (.mcp "boom2")) "Bug" ⟨none, 0⟩).state =
      ⟨some staticValidEntityTypes, 0⟩) ∧
    (1700000001000 - 0 > cacheExpiryMs →
      (validateEntityTypeSeq 1700000001000 (.ok ["Bug"]) "Bug"
        (validateEntityTypeSeq 1700000000000
          (.error (.mcp "boom2")) "Bug" ⟨none, 0⟩).state).refreshTriggered
        = true) ∧
    ((validateEntityTypeSeq 1700000000000
        (.ok staticFallbackEmpty) "Bug" ⟨none, 0⟩).state =
      ⟨some staticFallbackEmpty, 1700000000000⟩) ∧
    (1700000001000 - 1700000000000 ≤ cacheExpiryMs →
      (validateEntityTypeSeq 1700000001000 (.ok ["Bug"]) "Bug"
        (validateEntityTypeSeq 1700000000000
          (.ok staticFallbackEmpty) "Bug" ⟨none, 0⟩).state).refreshTriggered
        = false) ∧
    getValidEntityTypes (.ok (some [])) = .ok staticFallbackEmpty :=
  C5_amended ⟨none, 0⟩ 1700000000000 1700000001000 (.mcp "boom2")
    staticFallbackEmpty "Bug" "Bug" (.ok ["Bug"]) (.ok ["Bug"]) rfl

/-- Helper: escaping is the identity on strings without single quotes. -/
theorem escapeQuotes_eq_self : ∀ (s : List Char), (∀ c ∈ s, c ≠ '\'') →
    escapeQuotes s = s
  | [], _ => rfl
  | c :: rest, h => by
    have hc : c ≠ '\'' := h c (by simp)
    have ih := escapeQuotes_eq_self rest
      (fun x hx => h x (List.mem_cons_of_mem c hx))
    simp [escapeQuotes, hc, ih]

/-- Helper: stripping outer quotes is the identity on strings containing
no quote characters. -/
theorem stripOuterQuotes_eq_self {s : List Char}
    (h : ∀ c ∈ s, isQuoteChar c = false) : stripOuterQuotes s = s := by
  cases s with
  | nil => rfl
  | cons a t =>
    have ha := h a (by simp)
    have hlast := h ((a :: t).getLast (by simp)) (List.getLast_mem (by simp))
    unfold stripOuterQuotes
    simp only [ha, Bool.false_eq_true, if_false]
    rw [List.getLast?_eq_getLast (a :: t) (by simp)]
    simp [hlast]

/-- Helper: stripping one leading and one trailing quote undoes the
wrapping performed by the formatter. -/
theorem stripOuterQuotes_wrap (l : List Char) :
    stripOuterQuotes ('\'' :: (l ++ ['\''])) = l := by
  unfold stripOuterQuotes
  simp [isQuoteChar]

/-- Helper: the previous-character state after a cons. -/
theorem lastOr_cons (prev : Option Char) (c : Char) :
    ∀ w, lastOr prev (c :: w) = lastOr (some c) w
  | [] => by simp [lastOr]
  | d :: w2 => by
    cases hgl : (d :: w2).getLast? with
    | none => simp at hgl
    | some b => simp [lastOr, List.getLast?_cons_cons, hgl]

/-- Helper: a JS trim is the identity when the first and last characters
are not whitespace. -/
theorem trimChars_eq_self {l : List Char}
    (h1 : ∀ c, l.head? = some c → isWS c = false)
    (h2 : ∀ c, l.getLast? = some c → isWS c = false) : trimChars l = l := by
  cases l with
  | nil => rfl
  | cons a t =>
    have ha := h1 a rfl
    have hd1 : List.dropWhile isWS (a :: t) = a :: t := by
      simp [List.dropWhile_cons, ha]
    cases hrev : (a :: t).reverse with
    | nil => simp at hrev
    | cons b r2 =>
      have hb : (a :: t).getLast? = some b := by
        rw [← List.head?_reverse, hrev]
        rfl
      have hbws := h2 b hb
      have hd2 : List.dropWhile isWS (b :: r2) = b :: r2 := by
        simp [List.dropWhile_cons, hbws]
      unfold trimChars
      rw [hd1, hrev, hd2, ← hrev, List.reverse_reverse]

/-- Helper: while inside a quoted span a non-quote character is simply
appended: no separator fires and the quote state is unchanged. -/
theorem splitGo_step_in_quote (c : Char) (l : List Char) (prev : Option Char)
    (qc : Char) (cur : List Char) (acc : List (List Char))
    (hc1 : c ≠ '\'') (hc2 : c ≠ '"') :
    splitGo (c :: l) prev true qc cur acc =
      splitGo l (some c) true qc (cur ++ [c]) acc := by
  rcases l with _ | ⟨c2, _ | ⟨c3, _ | ⟨c4, rest⟩⟩⟩ <;>
    simp [splitGo, toggleQuote, hc1, hc2]

/-- Helper: an opening single quote outside a quoted span enters the
quoted state and is appended. -/
theorem splitGo_step_open (l : List Char) (prev : Option Char) (qc : Char)
    (cur : List Char) (acc : List (List Char)) (hprev : prev ≠ some '\\') :
    splitGo ('\'' :: l) prev false qc cur acc =
      splitGo l (some '\'') true '\'' (cur ++ ['\'']) acc := by
  have hp : (prev == some '\\') = false := by simp [hprev]
  rcases l with _ | ⟨c2, _ | ⟨c3, _ | ⟨c4, rest⟩⟩⟩ <;>
    simp [splitGo, toggleQuote, hp]

/-- Helper: a closing single quote leaves the quoted state and is
appended; it can never start a separator since it is not a space. -/
theorem splitGo_step_close (l : List Char) (prev : Option Char)
    (cur : List Char) (acc : List (List Char)) (hprev : prev ≠ some '\\') :
    splitGo ('\'' :: l) prev true '\'' cur acc =
      splitGo l (some '\'') false '\'' (cur ++ ['\'']) acc := by
  have hp : (prev == some '\\') = false := by simp [hprev]
  rcases l with _ | ⟨c2, _ | ⟨c3, _ | ⟨c4, rest⟩⟩⟩ <;>
    simp [splitGo, toggleQuote, isAndSep, hp]

/-- Helper: a quote-free span inside a quoted region is appended verbatim:
no character of it is treated as a separator, whatever it contains. -/
theorem splitGo_in_quote : ∀ (w rest : List Char) (prev : Option Char)
    (qc : Char) (cur : List Char) (acc : List (List Char)),
    (∀ c ∈ w, c ≠ '\'' ∧ c ≠ '"') →
    splitGo (w ++ rest) prev true qc cur acc =
      splitGo rest (lastOr prev w) true qc (cur ++ w) acc
  | [], rest, prev, qc, cur, acc => fun _ => by simp [lastOr]
  | c :: w2, rest, prev, qc, cur, acc => fun h => by
    have hc := h c (by simp)
    rw [List.cons_append,
      splitGo_step_in_quote c (w2 ++ rest) prev qc cur acc hc.1 hc.2,
      splitGo_in_quote w2 rest (some c) qc (cur ++ [c]) acc
        (fun x hx => h x (by simp [hx])),
      lastOr_cons prev c w2]
    simp

/-- Counterexample to claim C3: the Filter Compiler does not lowercase
field names — only operators are lowercased — so neither concrete example
of the claim holds as stated. -/
theorem C3_counterexample :
    validateWhereClause "Status is null" ≠ .ok "status is null" ∧
    validateWhereClause "Age gt 5" ≠ .ok "age gt '5'" := by
  exact ⟨by decide, by decide⟩

/-- Claim C3 as amended: field names keep their original case, so
`compile("Status is null")` yields `"Status is null"` and
`compile("Age gt 5")` yields `"Age gt '5'"`; the numeric value is indeed
formatted as a quoted string literal. -/
theorem C3_amended :
    validateWhereClause "Status is null" = .ok "Status is null" ∧
    validateWhereClause "Age gt 5" = .ok "Age gt '5'" := by
  exact ⟨by decide, by decide⟩

/-- Counterexample to claim C6: outside quoted spans the splitter fires on
a literal space followed by `and` with no delimiter required after it, so
`"a eq 'b' andc"` is split at `" and"` even though `andc` is not a
whitespace-delimited token — contradicting the claim that only a
whitespace-delimited-on-both-sides `and` separates. -/
theorem C6_counterexample :
    splitWhereAnd "a eq 'b' andc".toList = ["a eq 'b'".toList, "c".toList] ∧
    splitWhereAnd "a eq 'b' andc".toList ≠ ["a eq 'b' andc".toList] := by
  exact ⟨by decide, by decide⟩

/-- Claim C6 as amended: an `and` inside a quoted span is never treated as
a separator — a whole single-quoted value containing arbitrary quote-free,
backslash-free text (so in particular ` and `) survives as one condition —
while outside quoted spans the separator is a literal space character
followed by `and` (case-insensitive) with nothing required after it; other
whitespace such as a tab before `and` does not separate. -/
theorem C6_amended (w : List Char)
    (hw : ∀ c ∈ w, c ≠ '\'' ∧ c ≠ '"' ∧ c ≠ '\\') :
    splitWhereAnd ('\'' :: (w ++ ['\''])) = ['\'' :: (w ++ ['\''])] ∧
    splitWhereAnd "a eq 'b' andc".toList = ["a eq 'b'".toList, "c".toList] ∧
    splitWhereAnd "a eq 'b'\tand c".toList = ["a eq 'b'\tand c".toList] := by
  refine ⟨?_, by decide, by decide⟩
  unfold splitWhereAnd
  rw [splitGo_step_open (w ++ ['\'']) none ' ' [] [] (by simp)]
  rw [splitGo_in_quote w ['\''] (some '\'') '\'' ([] ++ ['\'']) []
    (fun c hc => ⟨(hw c hc).1, (hw c hc).2.1⟩)]
  have hne : lastOr (some '\'') w ≠ some '\\' := by
    unfold lastOr
    cases hgl : w.getLast? with
    | none => simp
    | some c =>
      have hcw := hw c (List.mem_of_getLast?_eq_some hgl)
      simp [hcw.2.2]
  rw [splitGo_step_close [] (lastOr (some '\'') w) (([] ++ ['\'']) ++ w) [] hne]
  have hlist : ((([] : List Char) ++ ['\'']) ++ w) ++ ['\''] =
      '\'' :: (w ++ ['\'']) := by simp
  rw [splitGo, hlist]
  have htrim : trimChars ('\'' :: (w ++ ['\''])) = '\'' :: (w ++ ['\'']) := by
    apply trimChars_eq_self
    · intro c hc
      simp only [List.head?_cons, Option.some.injEq] at hc
      rw [← hc]
      decide
    · intro c hc
      have : ('\'' :: (w ++ ['\''])).getLast? = some '\'' := by
        rw [show '\'' :: (w ++ ['\'']) = ('\'' :: w) ++ ['\''] from rfl]
        exact List.getLast?_concat _
      rw [this] at hc
      cases hc
      decide
  rw [htrim]
  simp

/-- Witness for the amended C6 at a quoted value containing ` and `. -/
theorem C6_amended_witness :
    splitWhereAnd ('\'' :: ("x and y".toList ++ ['\''])) =
      ['\'' :: ("x and y".toList ++ ['\''])] ∧
    splitWhereAnd "a eq 'b' andc".toList = ["a eq 'b'".toList, "c".toList] ∧
    splitWhereAnd "a eq 'b'\tand c".toList = ["a eq 'b'\tand c".toList] :=
  C6_amended "x and y".toList (by decide)

/-- Counterexample to claim C7: the custom-field branch of
`formatWhereField` keeps the remainder after the marker verbatim, so
whitespace is NOT stripped when the prefix is present. -/
theorem C7_counterexample :
    formatWhereField "CustomField.My Field".toList = "cf_My Field".toList ∧
    formatWhereField "CustomField.My Field".toList ≠ "cf_MyField".toList := by
  exact ⟨by decide, by decide⟩

/-- Claim C7 as amended: a field starting with the `CustomField.` marker
is rewritten to `cf_` plus the remainder kept verbatim — whitespace
included — while whitespace is stripped only from fields without the
marker. -/
theorem C7_amended (rest : List Char) :
    formatWhereField ("CustomField.".toList ++ rest) = "cf_".toList ++ rest ∧
    (∀ f : List Char, "CustomField.".toList.isPrefixOf f = false →
      ∀ c ∈ formatWhereField f, isWS c = false) := by
  constructor
  · have hpre : "CustomField.".toList.isPrefixOf
        ("CustomField.".toList ++ rest) = true := by
      rw [List.isPrefixOf_iff_prefix]
      exact List.prefix_append _ _
    have hlen : ("CustomField.".toList).length = 12 := by decide
    simp only [formatWhereField, hpre, if_true]
    rw [← hlen, List.drop_left]
  · intro f hf c hc
    simp only [formatWhereField, hf, Bool.false_eq_true, if_false] at hc
    have := (List.mem_filter.mp hc).2
    simpa using this

/-- Witness for the amended C7 at concrete fields with spaces. -/
theorem C7_amended_witness :
    (formatWhereField ("CustomField.".toList ++ "My Field".toList) =
      "cf_".toList ++ "My Field".toList) ∧
    (∀ c ∈ formatWhereField "Entity State".toList, isWS c = false) :=
  ⟨(C7_amended "My Field".toList).1,
   (C7_amended "My Field".toList).2 "Entity State".toList (by decide)⟩

/-- Claim C8: for strings without quote characters the literal formatter
is idempotent — formatting an already-formatted value strips the one outer
quote pair before escaping and re-wrapping, so no double wrapping
occurs. -/
theorem C8_format_idempotent (s : List Char)
    (h : ∀ c ∈ s, c ≠ '\'' ∧ c ≠ '"') :
    formatWhereValue (.str (formatWhereValue (.str s))) =
      formatWhereValue (.str s) := by
  have hq : ∀ c ∈ s, isQuoteChar c = false := by
    intro c hc
    have hcc := h c hc
    simp [isQuoteChar, hcc.1, hcc.2]
  have hnq : ∀ c ∈ s, c ≠ '\'' := fun c hc => (h c hc).1
  have h1 : formatWhereValue (.str s) = '\'' :: (s ++ ['\'']) := by
    simp [formatWhereValue, formatWhereString,
      stripOuterQuotes_eq_self hq, escapeQuotes_eq_self s hnq]
  rw [h1]
  simp [formatWhereValue, formatWhereString, stripOuterQuotes_wrap,
    escapeQuotes_eq_self s hnq]

/-- Witness for C8 at a concrete quote-free string. -/
theorem C8_format_idempotent_witness :
    formatWhereValue (.str (formatWhereValue (.str "abc".toList))) =
      formatWhereValue (.str "abc".toList) :=
  C8_format_idempotent "abc".toList (by decide)

end TP
